import Mathlib

/-!
Verification of the Backend Process Supervisor of CORE_Austere
(Electron main process, current revision of the main script).

The development shallowly embeds the supervisor logic:

* pure fragments (health-check backoff loop, teardown wait, exit
  classification, the `db:setPath` handler) become Lean functions that
  mirror the corresponding JavaScript line by line;
* the event-loop concurrency (interleaved `startPythonBackend`
  invocations, worker exits, in-flight health-check responses) becomes an
  explicit small-step transition system `step` over a supervisor state
  `MState`, with the scheduler's choices given as an action list.

All definitions are executable so that concrete schedules can be run
inside proofs.
-/

namespace CoreScout

/-! ## Path handling (Node `path.extname`, lowercased comparison)

`db:setPath` validates `path.extname(absPath).toLowerCase()` against an
allow-list.  We embed `path.extname` for Windows-style paths: take the
basename (after the last `/` or `\`), and return the substring from the
last `.` onwards unless that `.` is the first character of the basename.
-/

def isSep (c : Char) : Bool := c = '/' || c = '\\'

/-- Basename of a path, as a character list: everything after the last separator. -/
def basenameChars (cs : List Char) : List Char :=
  cs.foldl (fun acc c => if isSep c then [] else acc ++ [c]) []

/-- Suffix of `cs` strictly after the last `'.'` (assumes `'.' ∈ cs`). -/
def afterLastDot (cs : List Char) : List Char :=
  (cs.reverse.takeWhile (fun c => c ≠ '.')).reverse

/-- Node `path.extname` on the basename characters: from the last dot to the
end, unless the only dot is the leading character. -/
def extnameChars (cs : List Char) : List Char :=
  match basenameChars cs with
  | [] => []
  | _ :: rest => if '.' ∈ rest then '.' :: afterLastDot rest else []

def extname (p : String) : String :=
  String.mk (extnameChars p.data)

def toLower (s : String) : String :=
  String.mk (s.data.map Char.toLower)

/-- `const validExtensions = ['.db', '.sqlite', '.sqlite3'];` -/
def validExtensions : List String := [".db", ".sqlite", ".sqlite3"]

/-! ## Exit classification (the `pythonProcess.on('exit')` handler)

`if (code !== 0 && code !== null && !isShuttingDown) { showBackendError(...) }`
-/

/-- Whether the exit handler surfaces a user-facing error for exit `code`
(`none` models JavaScript `null`) given the `isShuttingDown` flag. -/
def exitSurfacesError (code : Option Int) (isShuttingDown : Bool) : Bool :=
  code ≠ some 0 && code ≠ none && !isShuttingDown

/-! ## Teardown wait (`startPythonBackend`, the wait-for-death promise)

The supervisor polls every 50 ms whether the old worker is gone
(`!pythonProcess || pythonProcess.killed || pythonProcess.exitCode !== null`)
and resolves at the first poll where it is; a 2000 ms timeout force-kills
the worker if that condition still fails and resolves unconditionally.
`deadAt t` is the value of the polled condition at time `t` (ms).
-/

/-- The poll instants of the 50 ms interval before the 2000 ms timeout fires. -/
def pollTicks : List Nat := (List.range 39).map (fun k => 50 * (k + 1))

/-- Resolution of the teardown wait: `(resolution time, forced SIGKILL?)`.
Resolves at the first 50 ms poll where the worker is observed gone, else at
the 2000 ms timeout, force-killing there exactly when the worker is still
alive. -/
def terminateWait (deadAt : Nat → Bool) : Nat × Bool :=
  match pollTicks.find? (fun t => deadAt t) with
  | some t => (t, false)
  | none => (2000, !deadAt 2000)

/-! ## Health-check cycle (`checkBackendHealthWithRetry`)

One cycle makes numbered attempts.  Attempt `n` (1-based) computes
`delay = Math.min(300 * Math.pow(1.5, n - 1), 2000)`; on a non-success
outcome it schedules the next attempt after `delay` iff
`attempts < 20 && elapsed < 20000`, otherwise it reports failure.
`Math.pow(1.5, n-1)` is exact in double precision for the attempt numbers
that can occur, so the delay is modelled exactly over `ℚ`.

The environment supplies, per attempt number, the elapsed wall-clock time
observed at its start and its outcome.
-/

def maxAttempts : Nat := 20
def maxTimeoutMs : Nat := 20000
def baseDelay : ℚ := 300
def maxDelay : ℚ := 2000

inductive AttemptOutcome
  | status (code : Nat)
  | connError
  | reqTimeout
deriving DecidableEq

/-- `res.statusCode === 200` ends the cycle as ready; every other outcome
(non-200 status, connection error, per-request timeout) is a failed attempt. -/
def outcomeOk : AttemptOutcome → Bool
  | .status c => c = 200
  | .connError => false
  | .reqTimeout => false

structure CycleEnv where
  elapsedAt : Nat → Nat
  outcomeAt : Nat → AttemptOutcome

inductive CycleResult
  | ready (attempts : Nat)
  | failed (attempts elapsed : Nat)
deriving DecidableEq

/-- Run the retry loop starting after `prev` attempts have already been made.
Returns the cycle result together with the schedule of backoff delays:
one entry `(n, delay)` for each attempt `n` that failed and scheduled a
retry. -/
def runFrom (env : CycleEnv) (prev : Nat) : CycleResult × List (Nat × ℚ) :=
  let attempts := prev + 1
  let elapsed := env.elapsedAt attempts
  let delay : ℚ := min (baseDelay * (3 / 2) ^ (attempts - 1)) maxDelay
  if outcomeOk (env.outcomeAt attempts) then (.ready attempts, [])
  else if attempts < maxAttempts ∧ elapsed < maxTimeoutMs then
    let rest := runFrom env attempts
    (rest.1, (attempts, delay) :: rest.2)
  else (.failed attempts elapsed, [])
termination_by maxAttempts - prev
decreasing_by
  simp only [maxAttempts] at *
  omega

/-- A full health-check cycle starts with zero attempts made. -/
def runCycle (env : CycleEnv) : CycleResult × List (Nat × ℚ) :=
  runFrom env 0

/-- Attempt count of a cycle result. -/
def resultAttempts : CycleResult → Nat
  | .ready a => a
  | .failed a _ => a

/-- The stop discipline of a cycle result: at most 20 attempts, and failure
is reported only once 20 attempts were made or 20000 ms had elapsed. -/
def resultStopOk : CycleResult → Prop
  | .ready a => a ≤ 20
  | .failed a e => a ≤ 20 ∧ (a = 20 ∨ 20000 ≤ e)

/-- The backoff delay the specification prescribes for attempt `n`. -/
def specBackoff (n : Nat) : ℚ := min (300 * (3 / 2) ^ (n - 1)) 2000

/-! ## The supervisor transition system

The Electron main process is single threaded, but `startPythonBackend` is
an async function whose `await` points let other IPC handlers, process
events and health-check callbacks interleave.  We model the supervisor as
a small-step transition system: the state carries the module-level
mutables (`pythonProcess`, `apiPort`, `selectedDBPath`, `backendReady`,
`isRestarting`, `isShuttingDown`), the set of actually-running worker
processes (`alive`, with the port each one is bound to), the pending
`exit`-event callbacks, the suspended `startPythonBackend` invocations
(`tasks`, by phase), and the live health-check cycles.  The scheduler's
choices (which suspended task resumes, when a worker dies, when an HTTP
response arrives) are the actions.

Modelling conventions, stated once:
* worker death is asynchronous: killing dispatches a signal and a separate
  `workerExit` action removes the worker and queues its `exit` callback;
  the 2 s escalation (`SIGKILL`) is modelled as killing immediately;
* the teardown wait's polled condition is modelled as "the supervised
  process is no longer running" (the packaged-app path, which waits on
  `exitCode`);
* the `spawn` event's `isRestarting = false` reset and the start of the
  health-check cycle are folded into the spawn step;
* an HTTP 200 can only be delivered for a port that some live worker is
  bound to;
* the 20 s elapsed-time cut of a health cycle is an oracle bit (`retryOk`)
  supplied with each failed response, since wall-clock time is not
  modelled.
-/

structure Worker where
  pid : Nat
  port : Nat
deriving DecidableEq

inductive StartPhase
  | allocWait
  | termWait
  | settle
deriving DecidableEq

structure HealthCycle where
  attempts : Nat
  inflight : Option Nat
deriving DecidableEq

structure SetPathResult where
  success : Bool
  error : Option String
  path : Option String
  restarted : Option Bool
deriving DecidableEq

structure MState where
  pythonProcess : Option Nat
  apiPort : Option Nat
  selectedDBPath : Option String
  savedConfig : Option String
  backendReady : Bool
  isRestarting : Bool
  isShuttingDown : Bool
  alive : List Worker
  pendingExits : List (Nat × Option Int)
  tasks : List (Nat × StartPhase)
  cycles : List (Nat × HealthCycle)
  nextId : Nat
  errorEvents : Nat
  readyEvents : List (Nat × Option Nat)
deriving DecidableEq

/-- The state at application startup (before any saved path is loaded). -/
def startState : MState :=
  { pythonProcess := none, apiPort := none, selectedDBPath := none,
    savedConfig := none, backendReady := false, isRestarting := false,
    isShuttingDown := false, alive := [], pendingExits := [], tasks := [],
    cycles := [], nextId := 0, errorEvents := 0, readyEvents := [] }

def alivePids (ws : List Worker) : List Nat := ws.map Worker.pid
def alivePorts (ws : List Worker) : List Nat := ws.map Worker.port

def taskPhase (ts : List (Nat × StartPhase)) (tid : Nat) : Option StartPhase :=
  (ts.find? (fun x => x.1 == tid)).map Prod.snd

def setTaskPhase (ts : List (Nat × StartPhase)) (tid : Nat) (ph : StartPhase) :
    List (Nat × StartPhase) :=
  ts.map (fun x => if x.1 == tid then (x.1, ph) else x)

def removeTask (ts : List (Nat × StartPhase)) (tid : Nat) : List (Nat × StartPhase) :=
  ts.filter (fun x => x.1 != tid)

def cycleOf (cs : List (Nat × HealthCycle)) (cid : Nat) : Option HealthCycle :=
  (cs.find? (fun x => x.1 == cid)).map Prod.snd

def setCycle (cs : List (Nat × HealthCycle)) (cid : Nat) (c : HealthCycle) :
    List (Nat × HealthCycle) :=
  cs.map (fun x => if x.1 == cid then (x.1, c) else x)

def removeCycle (cs : List (Nat × HealthCycle)) (cid : Nat) : List (Nat × HealthCycle) :=
  cs.filter (fun x => x.1 != cid)

def removeWorker (ws : List Worker) (pid : Nat) : List Worker :=
  ws.filter (fun w => w.pid != pid)

/-- The `ipcMain.handle('db:setPath')` body: falsy-path check (which clears
`selectedDBPath` before failing), extension allow-list check, existence
check, then store/save the path and, when no restart is in flight, set
`isRestarting`, clear `backendReady` and fire `startPythonBackend`.
Returns `(result, new state, whether a restart was triggered)`. -/
def dbSetPath (fs : String → Bool) (absPath : Option String) (s : MState) :
    SetPathResult × MState × Bool :=
  match absPath with
  | none =>
      (⟨false, some "No path provided", none, none⟩,
        { s with selectedDBPath := none }, false)
  | some p =>
      if p = "" then
        (⟨false, some "No path provided", none, none⟩,
          { s with selectedDBPath := none }, false)
      else
        let ext := toLower (extname p)
        if validExtensions.contains ext = false then
          (⟨false, some "Invalid file extension. Must be .db, .sqlite, or .sqlite3",
            none, none⟩, s, false)
        else if fs p = false then
          (⟨false, some "File does not exist", none, none⟩, s, false)
        else
          let s1 := { s with selectedDBPath := some p, savedConfig := some p }
          if s.isRestarting = false then
            (⟨true, none, some p, some true⟩,
              { s1 with isRestarting := true, backendReady := false }, true)
          else
            (⟨true, none, some p, some false⟩, s1, false)

/-- Reaching the `spawn` call of the `startPythonBackend` IIFE: the worker
is created on the current global `apiPort`, `pythonProcess` is assigned,
the `spawn` event clears `isRestarting`, and
`checkBackendHealthWithRetry()` opens a fresh health cycle. -/
def spawnWorker (s : MState) (port : Nat) : MState :=
  { s with
    alive := ⟨s.nextId, port⟩ :: s.alive,
    pythonProcess := some s.nextId,
    isRestarting := false,
    cycles := (s.nextId + 1, ⟨0, none⟩) :: s.cycles,
    nextId := s.nextId + 2 }

inductive Act
  | reqSetPath (p : Option String)
  | reqStart (allowNoDb : Bool)
  | allocReturn (tid port : Nat) (spawnOk : Bool)
  | termConfirm (tid : Nat)
  | termEscalate (tid : Nat)
  | settleDone (tid : Nat) (spawnOk : Bool)
  | workerExit (pid : Nat) (code : Option Int)
  | exitCb
  | healthAttempt (cid : Nat)
  | healthRespond (cid : Nat) (ok retryOk : Bool)
  | appQuit
deriving DecidableEq

/-- `db:setPath` handled to completion (it is synchronous up to firing the
un-awaited `startPythonBackend`, which becomes a task at its first await). -/
def stepSetPath (fs : String → Bool) (p : Option String) (s : MState) : MState :=
  let r := dbSetPath fs p s
  let s1 := r.2.1
  if r.2.2 then
    { s1 with tasks := s1.tasks ++ [(s1.nextId, StartPhase.allocWait)],
              nextId := s1.nextId + 1 }
  else s1

/-- `backend:start`: rejected without a database path (unless
`allowNoDatabase`), a no-op answer when a process handle exists, otherwise
it invokes `startPythonBackend` (a new task). -/
def stepReqStart (allowNoDb : Bool) (s : MState) : MState :=
  if s.selectedDBPath = none ∧ allowNoDb = false then s
  else
    match s.pythonProcess with
    | some _ => s
    | none =>
        { s with tasks := s.tasks ++ [(s.nextId, StartPhase.allocWait)],
                 nextId := s.nextId + 1 }

/-- `apiPort = await getFreePort()` resumes: the OS hands back a port no
live process is bound to and the global `apiPort` is reassigned at once.
With an existing process handle the code dispatches the kill and suspends
in the teardown wait; with none it falls through synchronously into the
IIFE and spawns (or returns early if the spawn fails). -/
def stepAlloc (tid port : Nat) (spawnOk : Bool) (s : MState) : Option MState :=
  if taskPhase s.tasks tid = some StartPhase.allocWait ∧ port ∉ alivePorts s.alive then
    let s1 := { s with apiPort := some port }
    match s.pythonProcess with
    | some _ => some { s1 with tasks := setTaskPhase s.tasks tid StartPhase.termWait }
    | none =>
        if spawnOk then some (spawnWorker { s1 with tasks := removeTask s.tasks tid } port)
        else some { s1 with tasks := removeTask s.tasks tid }
  else none

/-- The polled teardown condition observed true because the supervised
process is gone. -/
def observedGone (s : MState) : Bool :=
  match s.pythonProcess with
  | none => true
  | some q => !((alivePids s.alive).contains q)

/-- The teardown wait resolves through the 50 ms poll: the old process is
gone, so `pythonProcess = null`, `backendReady = false`, and the task moves
into the 1000 ms settle delay. -/
def stepTermConfirm (tid : Nat) (s : MState) : Option MState :=
  if taskPhase s.tasks tid = some StartPhase.termWait ∧ observedGone s = true then
    some { s with pythonProcess := none, backendReady := false,
                  tasks := setTaskPhase s.tasks tid StartPhase.settle }
  else none

/-- The 2000 ms kill timeout fires: a still-running process is
force-killed (`SIGKILL`, exit code `null`), then the wait resolves the
same way as a confirmed exit. -/
def stepTermEscalate (tid : Nat) (s : MState) : Option MState :=
  if taskPhase s.tasks tid = some StartPhase.termWait then
    let s1 :=
      match s.pythonProcess with
      | some q =>
          if (alivePids s.alive).contains q then
            { s with alive := removeWorker s.alive q,
                     pendingExits := s.pendingExits ++ [(q, none)] }
          else s
      | none => s
    some { s1 with pythonProcess := none, backendReady := false,
                   tasks := setTaskPhase s.tasks tid StartPhase.settle }
  else none

/-- The 1000 ms settle delay elapses and the IIFE runs: spawn the new
worker on the current global `apiPort`, or return early on spawn failure. -/
def stepSettleDone (tid : Nat) (spawnOk : Bool) (s : MState) : Option MState :=
  if taskPhase s.tasks tid = some StartPhase.settle then
    if spawnOk then
      match s.apiPort with
      | some pt => some (spawnWorker { s with tasks := removeTask s.tasks tid } pt)
      | none => none
    else some { s with tasks := removeTask s.tasks tid }
  else none

/-- A running worker process exits (of its own accord or from a dispatched
signal); its `exit` callback is queued. -/
def stepWorkerExit (pid : Nat) (code : Option Int) (s : MState) : Option MState :=
  if (alivePids s.alive).contains pid then
    some { s with alive := removeWorker s.alive pid,
                  pendingExits := s.pendingExits ++ [(pid, code)] }
  else none

/-- A queued `pythonProcess.on('exit')` callback runs: surface an error
for a non-zero, non-null code outside shutdown, then clear `backendReady`
and `isRestarting`. -/
def stepExitCb (s : MState) : Option MState :=
  match s.pendingExits with
  | [] => none
  | (_, code) :: rest =>
      some { s with pendingExits := rest,
                    backendReady := false, isRestarting := false,
                    errorEvents := s.errorEvents +
                      (if exitSurfacesError code s.isShuttingDown then 1 else 0) }

/-- `checkHealth` runs an attempt: increment the counter and issue an HTTP
request against the port read from the global `apiPort` at this instant. -/
def stepHealthAttempt (cid : Nat) (s : MState) : Option MState :=
  match cycleOf s.cycles cid, s.apiPort with
  | some c, some pt =>
      if c.inflight = none then
        some { s with cycles := setCycle s.cycles cid ⟨c.attempts + 1, some pt⟩ }
      else none
  | _, _ => none

/-- The response (or error/timeout) of the in-flight request arrives.  A
200 sets `backendReady = true` and announces readiness with the *current*
`apiPort` — the code never compares the responding port against it.  A
failure retries while `attempts < 20` and the elapsed-time cut has not
fired, else reports failure and clears `backendReady`. -/
def stepHealthRespond (cid : Nat) (ok retryOk : Bool) (s : MState) : Option MState :=
  match cycleOf s.cycles cid with
  | none => none
  | some c =>
      match c.inflight with
      | none => none
      | some pt =>
          if ok then
            if (alivePorts s.alive).contains pt then
              some { s with backendReady := true,
                            cycles := removeCycle s.cycles cid,
                            readyEvents := s.readyEvents ++ [(pt, s.apiPort)] }
            else none
          else if c.attempts < maxAttempts ∧ retryOk = true then
            some { s with cycles := setCycle s.cycles cid ⟨c.attempts, none⟩ }
          else
            some { s with backendReady := false,
                          cycles := removeCycle s.cycles cid,
                          errorEvents := s.errorEvents + 1 }

/-- `app:quit` / window-all-closed: set `isShuttingDown` and dispatch a
kill to the worker (whose death is a later `workerExit`). -/
def stepAppQuit (s : MState) : MState :=
  { s with isShuttingDown := true }

/-- One scheduler step.  `none` means the action is not enabled in `s`. -/
def step (fs : String → Bool) : Act → MState → Option MState
  | .reqSetPath p, s => some (stepSetPath fs p s)
  | .reqStart a, s => some (stepReqStart a s)
  | .allocReturn tid port ok, s => stepAlloc tid port ok s
  | .termConfirm tid, s => stepTermConfirm tid s
  | .termEscalate tid, s => stepTermEscalate tid s
  | .settleDone tid ok, s => stepSettleDone tid ok s
  | .workerExit pid code, s => stepWorkerExit pid code s
  | .exitCb, s => stepExitCb s
  | .healthAttempt cid, s => stepHealthAttempt cid s
  | .healthRespond cid ok r, s => stepHealthRespond cid ok r s
  | .appQuit, s => some (stepAppQuit s)

/-- Run a concrete schedule. -/
def run (fs : String → Bool) : List Act → MState → Option MState
  | [], s => some s
  | a :: rest, s =>
      match step fs a s with
      | some s1 => run fs rest s1
      | none => none

/-- Reachability from startup under a scheduler constraint `ok`. -/
inductive Reach (fs : String → Bool) (ok : Act → MState → Prop) : MState → Prop
  | base : Reach fs ok startState
  | next {s s' : MState} {a : Act} :
      Reach fs ok s → ok a s → step fs a s = some s' → Reach fs ok s'

/-- Start/restart requests are serialized: a request is only accepted when
no `startPythonBackend` invocation is in flight. -/
def serialOk : Act → MState → Prop
  | .reqSetPath _, s => s.tasks = []
  | .reqStart _, s => s.tasks = []
  | _, _ => True

/-- Health-check results are only delivered while no restart is in
flight (no stale result crosses a restart boundary). -/
def quietHealth : Act → MState → Prop
  | .healthRespond _ _ _, s => s.tasks = [] ∧ s.isRestarting = false
  | _, _ => True

def serialQuiet (a : Act) (s : MState) : Prop := serialOk a s ∧ quietHealth a s

/-! ### Projections used by concrete-schedule theorems -/

def fsAll : String → Bool := fun _ => true

def aliveCountOf : Option MState → Nat
  | none => 0
  | some s => s.alive.length

def alivePortsOf : Option MState → List Nat
  | none => []
  | some s => alivePorts s.alive

def apiPortOf : Option MState → Option Nat
  | none => none
  | some s => s.apiPort

def readyOf : Option MState → Bool
  | none => false
  | some s => s.backendReady

def restartingOf : Option MState → Bool
  | none => false
  | some s => s.isRestarting

def readyEventsOf : Option MState → List (Nat × Option Nat)
  | none => []
  | some s => s.readyEvents

/-! ### Concrete schedules

Each schedule is a scheduler interleaving that is admissible for the real
event loop; worker pids, health-cycle ids and task ids are allocated from
the shared counter (task 0, then worker 1 / cycle 2, then task 3, ...).

`schedDual`: while a restart (triggered by a second `db:setPath`) sits in
its 1000 ms settle delay — the old worker already confirmed dead and
`pythonProcess` already null — a `backend:start` request sees the null
handle and fires a second `startPythonBackend`; both invocations then
spawn a worker. -/
def schedDual : List Act :=
  [ .reqSetPath (some "a.db"),
    .allocReturn 0 5000 true,
    .reqSetPath (some "b.db"),
    .allocReturn 3 5001 true,
    .workerExit 1 none,
    .termConfirm 3,
    .reqStart false,
    .allocReturn 4 5002 true,
    .settleDone 3 true ]

/-- A restart supersedes port 6000 with 6001 while the first worker's
health request (issued against 6000) is still in flight; the late 200 from
the old worker then lands. -/
def schedStale : List Act :=
  [ .reqSetPath (some "c.db"),
    .allocReturn 0 6000 true,
    .healthAttempt 2,
    .reqSetPath (some "d.db"),
    .allocReturn 3 6001 true,
    .healthRespond 2 true true ]

/-- The first worker crashes (its port 8000 is released), then a restart
replaces it and the OS hands the same port 8000 back to the fresh
allocation. -/
def schedReuse : List Act :=
  [ .reqSetPath (some "g.db"),
    .allocReturn 0 8000 true,
    .workerExit 1 (some 1),
    .exitCb,
    .reqSetPath (some "h.db"),
    .allocReturn 3 8000 true,
    .termConfirm 3,
    .settleDone 3 true ]

/-- Prefix of `schedReuse`: the state in which the first worker is alive
on port 8000. -/
def schedReusePre : List Act :=
  [ .reqSetPath (some "g.db"),
    .allocReturn 0 8000 true ]

/-- A restart has allocated port 9001 but the old worker (on 9000) has not
been terminated yet. -/
def schedMid : List Act :=
  [ .reqSetPath (some "i.db"),
    .allocReturn 0 9000 true,
    .reqSetPath (some "j.db"),
    .allocReturn 3 9001 true ]

/-- Same shape as `schedStale` on different ports: an in-flight health
request of the old worker resolves with 200 after a new restart began. -/
def schedStale2 : List Act :=
  [ .reqSetPath (some "e.db"),
    .allocReturn 0 7000 true,
    .healthAttempt 2,
    .reqSetPath (some "f.db"),
    .allocReturn 3 7001 true,
    .healthRespond 2 true true ]

/-! ### Concrete states used by witnesses -/

def demoAfterSetPath : MState := stepSetPath fsAll (some "w.db") startState

def demoMidRestart : MState :=
  (run fsAll [ .reqSetPath (some "i.db"), .allocReturn 0 9000 true,
    .reqSetPath (some "j.db") ] startState).getD startState

def exitDemoState : MState := { startState with pendingExits := [(0, some 1)] }

def keepState : MState := { startState with selectedDBPath := some "keep.db" }

def envDemo : CycleEnv :=
  { elapsedAt := fun n => 100 * n, outcomeAt := fun _ => AttemptOutcome.connError }

/-! ### The serialized-restart invariant

Under serialized start/restart requests the supervisor maintains: at most
one `startPythonBackend` invocation in flight, at most one live worker,
every live worker is the one the handle points to, and a task in the
settle phase only exists after the handle was cleared (teardown
confirmed). -/

def SInv (s : MState) : Prop :=
  s.tasks.length ≤ 1 ∧
  s.alive.length ≤ 1 ∧
  (∀ w ∈ s.alive, s.pythonProcess = some w.pid) ∧
  (∀ tid, (tid, StartPhase.settle) ∈ s.tasks → s.pythonProcess = none)

/-! ### The readiness invariant (conditional)

`backendReady` implies "not restarting, and a process handle exists" —
provided restarts are serialized and no health-check result is delivered
while a restart is in flight. -/

def Inv8 (s : MState) : Prop :=
  s.backendReady = true → (s.isRestarting = false ∧ s.pythonProcess ≠ none)

/-! ### Helper lemmas about the bookkeeping operations -/

theorem mem_singleton_of_length_le_one {α : Type} {l : List α} {x : α}
    (hlen : l.length ≤ 1) (hx : x ∈ l) : l = [x] := by
  match l with
  | [] => cases hx
  | [a] => cases hx with
    | head => rfl
    | tail _ h => cases h
  | a :: b :: rest => simp at hlen

theorem taskPhase_mem {ts : List (Nat × StartPhase)} {tid : Nat} {ph : StartPhase}
    (h : taskPhase ts tid = some ph) : (tid, ph) ∈ ts := by
  unfold taskPhase at h
  cases hf : ts.find? (fun x => x.1 == tid) with
  | none => rw [hf] at h; cases h
  | some y =>
      rw [hf] at h
      have hy := List.find?_some hf
      have hmem := List.mem_of_find?_eq_some hf
      simp at h hy
      obtain ⟨y1, y2⟩ := y
      simp at hy h
      rw [hy, h] at hmem
      exact hmem

theorem mem_setTaskPhase {ts : List (Nat × StartPhase)} {tid : Nat} {ph : StartPhase}
    {y : Nat × StartPhase}
    (h : y ∈ setTaskPhase ts tid ph) : y.2 = ph ∨ y ∈ ts := by
  unfold setTaskPhase at h
  obtain ⟨x, hx, hfx⟩ := List.mem_map.mp h
  by_cases hk : (x.1 == tid) = true
  · rw [if_pos hk] at hfx
    left; rw [← hfx]
  · rw [if_neg hk] at hfx
    right; rw [← hfx]; exact hx

theorem mem_removeTask {ts : List (Nat × StartPhase)} {tid : Nat} {y : Nat × StartPhase}
    (h : y ∈ removeTask ts tid) : y ∈ ts :=
  List.mem_of_mem_filter h

theorem length_setTaskPhase (ts : List (Nat × StartPhase)) (tid : Nat) (ph : StartPhase) :
    (setTaskPhase ts tid ph).length = ts.length :=
  List.length_map _ _

theorem length_removeTask_le (ts : List (Nat × StartPhase)) (tid : Nat) :
    (removeTask ts tid).length ≤ ts.length :=
  List.length_filter_le _ _

theorem mem_removeWorker {ws : List Worker} {pid : Nat} {w : Worker}
    (h : w ∈ removeWorker ws pid) : w ∈ ws :=
  List.mem_of_mem_filter h

theorem length_removeWorker_le (ws : List Worker) (pid : Nat) :
    (removeWorker ws pid).length ≤ ws.length :=
  List.length_filter_le _ _

/-- The `db:setPath` handler never touches the process handle, the worker
set, the task list or the id counter. -/
theorem dbSetPath_frame (fs : String → Bool) (p : Option String) (s : MState) :
    ((dbSetPath fs p s).2.1).alive = s.alive ∧
    ((dbSetPath fs p s).2.1).pythonProcess = s.pythonProcess ∧
    ((dbSetPath fs p s).2.1).tasks = s.tasks ∧
    ((dbSetPath fs p s).2.1).nextId = s.nextId ∧
    ((dbSetPath fs p s).2.1).apiPort = s.apiPort := by
  unfold dbSetPath
  cases p with
  | none => exact ⟨rfl, rfl, rfl, rfl, rfl⟩
  | some q =>
      repeat' split
      all_goals try simp
      all_goals (split <;> simp)

theorem alive_eq_nil_of_python_none {ws : List Worker} {pp : Option Nat}
    (h2 : ∀ w ∈ ws, pp = some w.pid)
    (hn : pp = none) : ws = [] := by
  cases ha : ws with
  | nil => rfl
  | cons w rest =>
      have hw := h2 w (by rw [ha]; exact List.mem_cons_self _ _)
      rw [hn] at hw; cases hw

theorem alive_eq_nil_of_not_contains {ws : List Worker} {pp : Option Nat} {q : Nat}
    (h2 : ∀ w ∈ ws, pp = some w.pid)
    (hq : pp = some q)
    (hnm : ((alivePids ws).contains q) = false) : ws = [] := by
  cases ha : ws with
  | nil => rfl
  | cons w rest =>
      exfalso
      have hw := h2 w (by rw [ha]; exact List.mem_cons_self _ _)
      rw [hq] at hw; injection hw with hw'
      have hmem : q ∈ alivePids ws := by
        unfold alivePids; rw [ha]
        exact List.mem_map.mpr ⟨w, List.mem_cons_self _ _, hw'.symm⟩
      rw [← List.elem_iff] at hmem
      rw [List.contains] at hnm
      rw [hmem] at hnm
      cases hnm

theorem removeWorker_eq_nil {ws : List Worker} {pp : Option Nat} {q : Nat}
    (h2 : ∀ w ∈ ws, pp = some w.pid)
    (hq : pp = some q) : removeWorker ws q = [] := by
  unfold removeWorker
  rw [List.filter_eq_nil_iff]
  intro w hw
  have hwq := h2 w hw; rw [hq] at hwq; injection hwq with hwq'
  simp [hwq']

theorem stepSetPath_alive (fs : String → Bool) (p : Option String) (s : MState) :
    (stepSetPath fs p s).alive = s.alive := by
  unfold stepSetPath
  dsimp only
  have h := (dbSetPath_frame fs p s).1
  split <;> simpa using h

theorem stepSetPath_python (fs : String → Bool) (p : Option String) (s : MState) :
    (stepSetPath fs p s).pythonProcess = s.pythonProcess := by
  unfold stepSetPath
  dsimp only
  have h := (dbSetPath_frame fs p s).2.1
  split <;> simpa using h

theorem stepSetPath_tasks (fs : String → Bool) (p : Option String) (s : MState) :
    (stepSetPath fs p s).tasks = s.tasks ∨
    (stepSetPath fs p s).tasks = s.tasks ++ [(s.nextId, StartPhase.allocWait)] := by
  unfold stepSetPath
  dsimp only
  have ht := (dbSetPath_frame fs p s).2.2.1
  have hn := (dbSetPath_frame fs p s).2.2.2.1
  split
  · right; simp [ht, hn]
  · left; simpa using ht

theorem stepReqStart_alive (a : Bool) (s : MState) :
    (stepReqStart a s).alive = s.alive := by
  unfold stepReqStart
  split
  · rfl
  · split <;> rfl

theorem stepReqStart_python (a : Bool) (s : MState) :
    (stepReqStart a s).pythonProcess = s.pythonProcess := by
  unfold stepReqStart
  split
  · rfl
  · split <;> rfl

theorem stepReqStart_tasks (a : Bool) (s : MState) :
    (stepReqStart a s).tasks = s.tasks ∨
    (stepReqStart a s).tasks = s.tasks ++ [(s.nextId, StartPhase.allocWait)] := by
  unfold stepReqStart
  split
  · left; rfl
  · split
    · left; rfl
    · right; rfl

theorem sinv_stepSetPath {fs : String → Bool} {p : Option String} {s : MState}
    (h : SInv s) (hser : s.tasks = []) : SInv (stepSetPath fs p s) := by
  obtain ⟨h1, h2, h3, h4⟩ := h
  have ha := stepSetPath_alive fs p s
  have hp := stepSetPath_python fs p s
  refine ⟨?_, ?_, ?_, ?_⟩
  · cases stepSetPath_tasks fs p s with
    | inl ht => rw [ht, hser]; simp
    | inr ht => rw [ht, hser]; simp
  · rw [ha]; exact h2
  · intro w hw; rw [ha] at hw; rw [hp]; exact h3 w hw
  · intro t hmem
    cases stepSetPath_tasks fs p s with
    | inl ht => rw [ht, hser] at hmem; cases hmem
    | inr ht => rw [ht, hser] at hmem; simp at hmem

theorem sinv_stepReqStart {a : Bool} {s : MState}
    (h : SInv s) (hser : s.tasks = []) : SInv (stepReqStart a s) := by
  obtain ⟨h1, h2, h3, h4⟩ := h
  have ha := stepReqStart_alive a s
  have hp := stepReqStart_python a s
  refine ⟨?_, ?_, ?_, ?_⟩
  · cases stepReqStart_tasks a s with
    | inl ht => rw [ht, hser]; simp
    | inr ht => rw [ht, hser]; simp
  · rw [ha]; exact h2
  · intro w hw; rw [ha] at hw; rw [hp]; exact h3 w hw
  · intro t hmem
    cases stepReqStart_tasks a s with
    | inl ht => rw [ht, hser] at hmem; cases hmem
    | inr ht => rw [ht, hser] at hmem; simp at hmem

theorem sinv_stepAlloc {tid port : Nat} {ok : Bool} {s s' : MState}
    (h : SInv s) (hst : stepAlloc tid port ok s = some s') : SInv s' := by
  obtain ⟨h1, h2, h3, h4⟩ := h
  unfold stepAlloc at hst
  split at hst
  case isFalse => cases hst
  case isTrue hg =>
    obtain ⟨hph, hports⟩ := hg
    dsimp only at hst
    split at hst
    next q hpy =>
      injection hst with hst
      subst hst
      refine ⟨?_, ?_, ?_, ?_⟩
      · simpa [length_setTaskPhase] using h1
      · exact h2
      · intro w hw; exact h3 w hw
      · intro t hmem
        cases mem_setTaskPhase hmem with
        | inl habs => simp at habs
        | inr hold => simp [h4 t hold] at hpy
    next hpy =>
      have hsing := mem_singleton_of_length_le_one h1 (taskPhase_mem hph)
      have haw : s.alive = [] := alive_eq_nil_of_python_none h3 hpy
      split at hst
      · injection hst with hst
        subst hst
        refine ⟨?_, ?_, ?_, ?_⟩
        · simp [spawnWorker, hsing, removeTask]
        · simp [spawnWorker, haw]
        · intro w hw
          simp [spawnWorker, haw] at hw
          simp [spawnWorker, hw]
        · intro t hmem
          simp [spawnWorker, hsing, removeTask] at hmem
      · injection hst with hst
        subst hst
        refine ⟨?_, ?_, ?_, ?_⟩
        · simp [hsing, removeTask]
        · exact h2
        · intro w hw; exact h3 w hw
        · intro t hmem
          simp [hsing, removeTask] at hmem

theorem sinv_stepTermConfirm {tid : Nat} {s s' : MState}
    (h : SInv s) (hst : stepTermConfirm tid s = some s') : SInv s' := by
  obtain ⟨h1, h2, h3, h4⟩ := h
  unfold stepTermConfirm at hst
  split at hst
  case isFalse => cases hst
  case isTrue hg =>
    obtain ⟨hph, hgone⟩ := hg
    injection hst with hst
    subst hst
    have haw : s.alive = [] := by
      unfold observedGone at hgone
      cases hpy : s.pythonProcess with
      | none => exact alive_eq_nil_of_python_none h3 hpy
      | some q =>
          rw [hpy] at hgone
          simp at hgone
          exact alive_eq_nil_of_not_contains h3 hpy (by simpa using hgone)
    refine ⟨?_, ?_, ?_, ?_⟩
    · simpa [length_setTaskPhase] using h1
    · exact h2
    · intro w hw; rw [haw] at hw; cases hw
    · intro t hmem; rfl

theorem sinv_stepTermEscalate {tid : Nat} {s s' : MState}
    (h : SInv s) (hst : stepTermEscalate tid s = some s') : SInv s' := by
  obtain ⟨h1, h2, h3, h4⟩ := h
  unfold stepTermEscalate at hst
  split at hst
  case isFalse => cases hst
  case isTrue hph =>
    dsimp only at hst
    split at hst
    next q hpy =>
      split at hst
      next hc =>
        injection hst with hst; subst hst
        have hrem : removeWorker s.alive q = [] := removeWorker_eq_nil h3 hpy
        refine ⟨?_, ?_, ?_, ?_⟩
        · simpa [length_setTaskPhase] using h1
        · simp [hrem]
        · intro w hw; rw [hrem] at hw; cases hw
        · intro t hmem; rfl
      next hc =>
        injection hst with hst; subst hst
        have haw : s.alive = [] :=
          alive_eq_nil_of_not_contains h3 hpy (by simpa using hc)
        refine ⟨?_, ?_, ?_, ?_⟩
        · simpa [length_setTaskPhase] using h1
        · exact h2
        · intro w hw; rw [haw] at hw; cases hw
        · intro t hmem; rfl
    next hpy =>
      injection hst with hst; subst hst
      have haw : s.alive = [] := alive_eq_nil_of_python_none h3 hpy
      refine ⟨?_, ?_, ?_, ?_⟩
      · simpa [length_setTaskPhase] using h1
      · exact h2
      · intro w hw; rw [haw] at hw; cases hw
      · intro t hmem; rfl

theorem sinv_stepSettleDone {tid : Nat} {ok : Bool} {s s' : MState}
    (h : SInv s) (hst : stepSettleDone tid ok s = some s') : SInv s' := by
  obtain ⟨h1, h2, h3, h4⟩ := h
  unfold stepSettleDone at hst
  split at hst
  case isFalse => cases hst
  case isTrue hph =>
    have hpy : s.pythonProcess = none := h4 tid (taskPhase_mem hph)
    have hsing := mem_singleton_of_length_le_one h1 (taskPhase_mem hph)
    have haw : s.alive = [] := alive_eq_nil_of_python_none h3 hpy
    split at hst
    · split at hst
      next pt hpt =>
        injection hst with hst; subst hst
        refine ⟨?_, ?_, ?_, ?_⟩
        · simp [spawnWorker, hsing, removeTask]
        · simp [spawnWorker, haw]
        · intro w hw
          simp [spawnWorker, haw] at hw
          simp [spawnWorker, hw]
        · intro t hmem
          simp [spawnWorker, hsing, removeTask] at hmem
      next => cases hst
    · injection hst with hst; subst hst
      refine ⟨?_, ?_, ?_, ?_⟩
      · simp [hsing, removeTask]
      · exact h2
      · intro w hw; exact h3 w hw
      · intro t hmem; simp [hsing, removeTask] at hmem

theorem sinv_stepWorkerExit {pid : Nat} {code : Option Int} {s s' : MState}
    (h : SInv s) (hst : stepWorkerExit pid code s = some s') : SInv s' := by
  obtain ⟨h1, h2, h3, h4⟩ := h
  unfold stepWorkerExit at hst
  split at hst
  case isFalse => cases hst
  case isTrue hc =>
    injection hst with hst; subst hst
    refine ⟨h1, ?_, ?_, ?_⟩
    · exact le_trans (length_removeWorker_le _ _) h2
    · intro w hw; exact h3 w (mem_removeWorker hw)
    · intro t hm; exact h4 t hm

theorem sinv_stepExitCb {s s' : MState}
    (h : SInv s) (hst : stepExitCb s = some s') : SInv s' := by
  obtain ⟨h1, h2, h3, h4⟩ := h
  unfold stepExitCb at hst
  cases hpe : s.pendingExits with
  | nil => rw [hpe] at hst; cases hst
  | cons pc rest =>
      obtain ⟨pid, code⟩ := pc
      rw [hpe] at hst
      injection hst with hst; subst hst
      exact ⟨h1, h2, fun w hw => h3 w hw, fun t hm => h4 t hm⟩

theorem sinv_stepHealthAttempt {cid : Nat} {s s' : MState}
    (h : SInv s) (hst : stepHealthAttempt cid s = some s') : SInv s' := by
  obtain ⟨h1, h2, h3, h4⟩ := h
  unfold stepHealthAttempt at hst
  split at hst
  next c pt hc hpt =>
    split at hst
    · injection hst with hst; subst hst
      exact ⟨h1, h2, fun w hw => h3 w hw, fun t hm => h4 t hm⟩
    · cases hst
  next => cases hst

theorem sinv_stepHealthRespond {cid : Nat} {ok r : Bool} {s s' : MState}
    (h : SInv s) (hst : stepHealthRespond cid ok r s = some s') : SInv s' := by
  obtain ⟨h1, h2, h3, h4⟩ := h
  unfold stepHealthRespond at hst
  split at hst
  next => cases hst
  next c hc =>
    split at hst
    next => cases hst
    next pt hin =>
      split at hst
      · split at hst
        · injection hst with hst; subst hst
          exact ⟨h1, h2, fun w hw => h3 w hw, fun t hm => h4 t hm⟩
        · cases hst
      · split at hst
        · injection hst with hst; subst hst
          exact ⟨h1, h2, fun w hw => h3 w hw, fun t hm => h4 t hm⟩
        · injection hst with hst; subst hst
          exact ⟨h1, h2, fun w hw => h3 w hw, fun t hm => h4 t hm⟩

theorem sinv_stepAppQuit {s : MState} (h : SInv s) : SInv (stepAppQuit s) := by
  obtain ⟨h1, h2, h3, h4⟩ := h
  exact ⟨h1, h2, fun w hw => h3 w hw, fun t hm => h4 t hm⟩

theorem sinv_step {fs : String → Bool} {a : Act} {s s' : MState}
    (h : SInv s) (hok : serialOk a s) (hst : step fs a s = some s') : SInv s' := by
  cases a with
  | reqSetPath p => injection hst with hst; subst hst; exact sinv_stepSetPath h hok
  | reqStart b => injection hst with hst; subst hst; exact sinv_stepReqStart h hok
  | allocReturn tid port ok => exact sinv_stepAlloc h hst
  | termConfirm tid => exact sinv_stepTermConfirm h hst
  | termEscalate tid => exact sinv_stepTermEscalate h hst
  | settleDone tid ok => exact sinv_stepSettleDone h hst
  | workerExit pid code => exact sinv_stepWorkerExit h hst
  | exitCb => exact sinv_stepExitCb h hst
  | healthAttempt cid => exact sinv_stepHealthAttempt h hst
  | healthRespond cid ok r => exact sinv_stepHealthRespond h hst
  | appQuit => injection hst with hst; subst hst; exact sinv_stepAppQuit h

theorem sinv_start : SInv startState := by
  refine ⟨?_, ?_, ?_, ?_⟩
  · simp [startState]
  · simp [startState]
  · intro w hw; simp [startState] at hw
  · intro t hm; simp [startState] at hm

/-- Every state reachable under a scheduler constraint at least as strong
as serialization satisfies the serialized-restart invariant. -/
theorem sinv_reach {fs : String → Bool} {ok : Act → MState → Prop} {s : MState}
    (hmono : ∀ a s, ok a s → serialOk a s) (h : Reach fs ok s) : SInv s := by
  induction h with
  | base => exact sinv_start
  | next hr hok hst ih => exact sinv_step ih (hmono _ _ hok) hst

theorem dbSetPath_flags (fs : String → Bool) (p : Option String) (s : MState) :
    ((dbSetPath fs p s).2.1).backendReady = false ∨
    (((dbSetPath fs p s).2.1).backendReady = s.backendReady ∧
      ((dbSetPath fs p s).2.1).isRestarting = s.isRestarting) := by
  unfold dbSetPath
  cases p with
  | none => right; exact ⟨rfl, rfl⟩
  | some q =>
      dsimp only
      repeat' split
      all_goals first
        | (left; rfl)
        | (right; exact ⟨rfl, rfl⟩)

theorem stepSetPath_flags (fs : String → Bool) (p : Option String) (s : MState) :
    (stepSetPath fs p s).backendReady = false ∨
    ((stepSetPath fs p s).backendReady = s.backendReady ∧
      (stepSetPath fs p s).isRestarting = s.isRestarting) := by
  unfold stepSetPath
  dsimp only
  have h := dbSetPath_flags fs p s
  split <;> simpa using h

theorem inv8_step {fs : String → Bool} {a : Act} {s s' : MState}
    (hS : SInv s) (h8 : Inv8 s) (hok : serialQuiet a s)
    (hst : step fs a s = some s') : Inv8 s' := by
  cases a with
  | reqSetPath p =>
      injection hst with hst; subst hst
      intro hrdy
      cases stepSetPath_flags fs p s with
      | inl hf => rw [hf] at hrdy; cases hrdy
      | inr hf =>
          obtain ⟨hb, hr⟩ := hf
          rw [hb] at hrdy
          obtain ⟨h81, h82⟩ := h8 hrdy
          refine ⟨by rw [hr, h81], ?_⟩
          rw [stepSetPath_python]
          exact h82
  | reqStart b =>
      injection hst with hst; subst hst
      unfold stepReqStart
      split
      · exact h8
      · split
        · exact h8
        · intro hrdy
          exact h8 hrdy
  | allocReturn tid port ok =>
      simp only [step] at hst
      unfold stepAlloc at hst
      split at hst
      case isFalse => cases hst
      case isTrue hg =>
        dsimp only at hst
        split at hst
        next q hpy =>
          injection hst with hst; subst hst
          intro hrdy
          exact h8 hrdy
        next hpy =>
          split at hst
          · injection hst with hst; subst hst
            intro hrdy
            exact ⟨rfl, by simp [spawnWorker]⟩
          · injection hst with hst; subst hst
            intro hrdy
            exact absurd hpy (h8 hrdy).2
  | termConfirm tid =>
      simp only [step] at hst
      unfold stepTermConfirm at hst
      split at hst
      case isFalse => cases hst
      case isTrue hg =>
        injection hst with hst; subst hst
        intro hrdy; cases hrdy
  | termEscalate tid =>
      simp only [step] at hst
      unfold stepTermEscalate at hst
      split at hst
      case isFalse => cases hst
      case isTrue hph =>
        dsimp only at hst
        split at hst
        next q hpy =>
          split at hst
          · injection hst with hst; subst hst
            intro hrdy; cases hrdy
          · injection hst with hst; subst hst
            intro hrdy; cases hrdy
        next hpy =>
          injection hst with hst; subst hst
          intro hrdy; cases hrdy
  | settleDone tid ok =>
      simp only [step] at hst
      unfold stepSettleDone at hst
      split at hst
      case isFalse => cases hst
      case isTrue hph =>
        split at hst
        · split at hst
          next pt hpt =>
            injection hst with hst; subst hst
            intro hrdy
            exact ⟨rfl, by simp [spawnWorker]⟩
          next => cases hst
        · injection hst with hst; subst hst
          intro hrdy
          exact h8 hrdy
  | workerExit pid code =>
      simp only [step] at hst
      unfold stepWorkerExit at hst
      split at hst
      case isFalse => cases hst
      case isTrue hc =>
        injection hst with hst; subst hst
        intro hrdy
        exact h8 hrdy
  | exitCb =>
      simp only [step] at hst
      unfold stepExitCb at hst
      cases hpe : s.pendingExits with
      | nil => rw [hpe] at hst; cases hst
      | cons pc rest =>
          obtain ⟨pid, code⟩ := pc
          rw [hpe] at hst
          injection hst with hst; subst hst
          intro hrdy; cases hrdy
  | healthAttempt cid =>
      simp only [step] at hst
      unfold stepHealthAttempt at hst
      split at hst
      next c pt hc hpt =>
        split at hst
        · injection hst with hst; subst hst
          intro hrdy
          exact h8 hrdy
        · cases hst
      next => cases hst
  | healthRespond cid ok r =>
      have hq : s.tasks = [] ∧ s.isRestarting = false := hok.2
      simp only [step] at hst
      unfold stepHealthRespond at hst
      split at hst
      next => cases hst
      next c hc =>
        split at hst
        next => cases hst
        next pt hin =>
          split at hst
          · split at hst
            next hcontains =>
              injection hst with hst; subst hst
              intro hrdy
              refine ⟨hq.2, ?_⟩
              have hpt : pt ∈ alivePorts s.alive := by
                rw [← List.elem_iff]
                exact hcontains
              obtain ⟨w, hw, hwp⟩ := List.mem_map.mp hpt
              have := hS.2.2.1 w hw
              simp [this]
            next => cases hst
          · split at hst
            · injection hst with hst; subst hst
              intro hrdy
              exact h8 hrdy
            · injection hst with hst; subst hst
              intro hrdy; cases hrdy
  | appQuit =>
      injection hst with hst; subst hst
      intro hrdy
      exact h8 hrdy

theorem inv8_start : Inv8 startState := by
  intro h; simp [startState] at h

/-- Readiness invariant along serialized-and-quiet schedules. -/
theorem inv8_reach {fs : String → Bool} {s : MState}
    (h : Reach fs serialQuiet s) : Inv8 s := by
  induction h with
  | base => exact inv8_start
  | next hr hok hst ih =>
      exact inv8_step (sinv_reach (fun a s hh => hh.1) hr) ih hok hst

/-! ### Properties of the health-check retry loop -/

theorem runFrom_step (env : CycleEnv) (prev : Nat) :
    runFrom env prev =
      (if outcomeOk (env.outcomeAt (prev + 1)) then (.ready (prev + 1), [])
       else if prev + 1 < maxAttempts ∧ env.elapsedAt (prev + 1) < maxTimeoutMs then
         ((runFrom env (prev + 1)).1,
           (prev + 1, min (baseDelay * (3 / 2) ^ (prev + 1 - 1)) maxDelay)
             :: (runFrom env (prev + 1)).2)
       else (.failed (prev + 1) (env.elapsedAt (prev + 1)), [])) := by
  rw [runFrom]

theorem runFrom_spec (env : CycleEnv) :
    ∀ fuel prev, maxAttempts - prev ≤ fuel → prev < maxAttempts →
      resultStopOk (runFrom env prev).1 ∧
      ∃ k, prev + k ≤ maxAttempts - 1 ∧
        (runFrom env prev).2 =
          (List.range k).map (fun i => (prev + i + 1, specBackoff (prev + i + 1))) := by
  intro fuel
  induction fuel with
  | zero =>
      intro prev hf hp
      simp only [maxAttempts] at hf hp
      omega
  | succ n ih =>
      intro prev hf hp
      rw [runFrom_step]
      by_cases hok : outcomeOk (env.outcomeAt (prev + 1)) = true
      · rw [if_pos hok]
        refine ⟨?_, 0, by omega, by simp⟩
        show resultStopOk (.ready (prev + 1))
        simp only [resultStopOk, maxAttempts] at hp ⊢
        omega
      · rw [if_neg hok]
        by_cases hretry : prev + 1 < maxAttempts ∧ env.elapsedAt (prev + 1) < maxTimeoutMs
        · rw [if_pos hretry]
          obtain ⟨hs, k, hk, hsch⟩ :=
            ih (prev + 1) (by simp only [maxAttempts] at hf ⊢; omega) hretry.1
          refine ⟨hs, k + 1, by simp only [maxAttempts] at hk ⊢; omega, ?_⟩
          rw [hsch, List.range_succ_eq_map, List.map_cons, List.map_map]
          simp [specBackoff, baseDelay, maxDelay]
          intro a ha
          constructor
          · omega
          · rw [show prev + 1 + a = prev + (a + 1) from by omega]
        · rw [if_neg hretry]
          refine ⟨?_, 0, by omega, by simp⟩
          show resultStopOk (.failed (prev + 1) (env.elapsedAt (prev + 1)))
          rw [not_and_or] at hretry
          simp only [resultStopOk, maxAttempts, maxTimeoutMs] at hretry hp ⊢
          omega

/-! ### Support lemmas for the remaining claims -/

theorem exitSurfacesError_iff (code : Option Int) (sd : Bool) :
    exitSurfacesError code sd = true ↔ (code ≠ none ∧ code ≠ some 0 ∧ sd = false) := by
  unfold exitSurfacesError
  cases code with
  | none => cases sd <;> simp
  | some v => cases sd <;> simp

theorem dbSetPath_invalid (fs : String → Bool) (p : String) (s : MState)
    (hne : p ≠ "")
    (hbad : validExtensions.contains (toLower (extname p)) = false ∨ fs p = false) :
    (dbSetPath fs (some p) s).1.success = false ∧
    (dbSetPath fs (some p) s).1.error ≠ none ∧
    (dbSetPath fs (some p) s).2.2 = false ∧
    (dbSetPath fs (some p) s).2.1 = s := by
  unfold dbSetPath
  dsimp only
  rw [if_neg hne]
  cases hbad with
  | inl h => rw [if_pos h]; exact ⟨rfl, by simp, rfl, rfl⟩
  | inr h =>
      by_cases hc : validExtensions.contains (toLower (extname p)) = false
      · rw [if_pos hc]; exact ⟨rfl, by simp, rfl, rfl⟩
      · rw [if_neg hc, if_pos h]; exact ⟨rfl, by simp, rfl, rfl⟩

theorem dbSetPath_falsy (fs : String → Bool) (s : MState) :
    (dbSetPath fs none s).1.success = false ∧
    (dbSetPath fs none s).2.1 = { s with selectedDBPath := none } ∧
    (dbSetPath fs none s).2.2 = false ∧
    (dbSetPath fs (some "") s).1.success = false ∧
    (dbSetPath fs (some "") s).2.1 = { s with selectedDBPath := none } ∧
    (dbSetPath fs (some "") s).2.2 = false := by
  unfold dbSetPath
  exact ⟨rfl, rfl, rfl, rfl, rfl, rfl⟩

theorem mem_setTaskPhase_self {ts : List (Nat × StartPhase)} {tid : Nat}
    {ph0 ph : StartPhase} (h : (tid, ph0) ∈ ts) :
    (tid, ph) ∈ setTaskPhase ts tid ph :=
  List.mem_map.mpr ⟨(tid, ph0), h, by simp⟩

/-- A fresh allocation reassigns the global port at once and can never
return a port some live worker is bound to. -/
theorem stepAlloc_fresh {tid port : Nat} {ok : Bool} {s s' : MState}
    (hst : stepAlloc tid port ok s = some s') :
    s'.apiPort = some port ∧ ∀ w ∈ s.alive, w.port ≠ port := by
  unfold stepAlloc at hst
  split at hst
  case isFalse => cases hst
  case isTrue hg =>
    obtain ⟨hph, hports⟩ := hg
    have hfresh : ∀ w ∈ s.alive, w.port ≠ port := by
      intro w hw heq
      exact hports (List.mem_map.mpr ⟨w, hw, heq⟩)
    dsimp only at hst
    split at hst
    next q hpy => injection hst with hst; subst hst; exact ⟨rfl, hfresh⟩
    next hpy =>
      split at hst
      · injection hst with hst; subst hst
        exact ⟨by simp [spawnWorker], hfresh⟩
      · injection hst with hst; subst hst; exact ⟨rfl, hfresh⟩

/-- When an old worker exists, the allocation step reassigns `apiPort`
while that worker is still untouched: nothing is terminated, nothing is
spawned, readiness is unchanged, and the invocation merely moves into the
teardown wait. -/
theorem stepAlloc_before_teardown {tid port : Nat} {ok : Bool} {q : Nat} {s s' : MState}
    (hst : stepAlloc tid port ok s = some s') (hpy : s.pythonProcess = some q) :
    s'.apiPort = some port ∧ s'.alive = s.alive ∧ s'.pythonProcess = some q ∧
    s'.backendReady = s.backendReady ∧ (tid, StartPhase.termWait) ∈ s'.tasks := by
  unfold stepAlloc at hst
  split at hst
  case isFalse => cases hst
  case isTrue hg =>
    obtain ⟨hph, hports⟩ := hg
    dsimp only at hst
    split at hst
    next q2 hpy2 =>
      injection hst with hst; subst hst
      rw [hpy] at hpy2
      injection hpy2 with hq2
      subst hq2
      refine ⟨rfl, rfl, hpy, rfl, ?_⟩
      exact mem_setTaskPhase_self (taskPhase_mem hph)
    next hpy2 => rw [hpy] at hpy2; cases hpy2

/-- Flag discipline of every step: either it clears `backendReady`, or it
leaves both flags alone, or it clears `isRestarting` (spawn), or it is the
delivery of a successful health response (the only step that can raise
`backendReady`, and it leaves `isRestarting` alone). -/
theorem step_flags {fs : String → Bool} {a : Act} {s s' : MState}
    (hst : step fs a s = some s') :
    s'.backendReady = false ∨
    (s'.backendReady = s.backendReady ∧ s'.isRestarting = s.isRestarting) ∨
    (s'.backendReady = s.backendReady ∧ s'.isRestarting = false) ∨
    ((∃ cid r, a = Act.healthRespond cid true r) ∧ s'.isRestarting = s.isRestarting) := by
  cases a with
  | reqSetPath p =>
      injection hst with hst; subst hst
      cases stepSetPath_flags fs p s with
      | inl h => exact Or.inl h
      | inr h => exact Or.inr (Or.inl h)
  | reqStart b =>
      injection hst with hst; subst hst
      unfold stepReqStart
      split
      · exact Or.inr (Or.inl ⟨rfl, rfl⟩)
      · split
        · exact Or.inr (Or.inl ⟨rfl, rfl⟩)
        · exact Or.inr (Or.inl ⟨rfl, rfl⟩)
  | allocReturn tid port ok =>
      simp only [step] at hst
      unfold stepAlloc at hst
      split at hst
      case isFalse => cases hst
      case isTrue hg =>
        dsimp only at hst
        split at hst
        next q hpy =>
          injection hst with hst; subst hst
          exact Or.inr (Or.inl ⟨rfl, rfl⟩)
        next hpy =>
          split at hst
          · injection hst with hst; subst hst
            exact Or.inr (Or.inr (Or.inl ⟨rfl, rfl⟩))
          · injection hst with hst; subst hst
            exact Or.inr (Or.inl ⟨rfl, rfl⟩)
  | termConfirm tid =>
      simp only [step] at hst
      unfold stepTermConfirm at hst
      split at hst
      case isFalse => cases hst
      case isTrue hg =>
        injection hst with hst; subst hst
        exact Or.inl rfl
  | termEscalate tid =>
      simp only [step] at hst
      unfold stepTermEscalate at hst
      split at hst
      case isFalse => cases hst
      case isTrue hph =>
        dsimp only at hst
        split at hst
        next q hpy =>
          split at hst
          · injection hst with hst; subst hst; exact Or.inl rfl
          · injection hst with hst; subst hst; exact Or.inl rfl
        next hpy =>
          injection hst with hst; subst hst; exact Or.inl rfl
  | settleDone tid ok =>
      simp only [step] at hst
      unfold stepSettleDone at hst
      split at hst
      case isFalse => cases hst
      case isTrue hph =>
        split at hst
        · split at hst
          next pt hpt =>
            injection hst with hst; subst hst
            exact Or.inr (Or.inr (Or.inl ⟨rfl, rfl⟩))
          next => cases hst
        · injection hst with hst; subst hst
          exact Or.inr (Or.inl ⟨rfl, rfl⟩)
  | workerExit pid code =>
      simp only [step] at hst
      unfold stepWorkerExit at hst
      split at hst
      case isFalse => cases hst
      case isTrue hc =>
        injection hst with hst; subst hst
        exact Or.inr (Or.inl ⟨rfl, rfl⟩)
  | exitCb =>
      simp only [step] at hst
      unfold stepExitCb at hst
      cases hpe : s.pendingExits with
      | nil => rw [hpe] at hst; cases hst
      | cons pc rest =>
          obtain ⟨pid, code⟩ := pc
          rw [hpe] at hst
          injection hst with hst; subst hst
          exact Or.inl rfl
  | healthAttempt cid =>
      simp only [step] at hst
      unfold stepHealthAttempt at hst
      split at hst
      next c pt hc hpt =>
        split at hst
        · injection hst with hst; subst hst
          exact Or.inr (Or.inl ⟨rfl, rfl⟩)
        · cases hst
      next => cases hst
  | healthRespond cid ok r =>
      simp only [step] at hst
      unfold stepHealthRespond at hst
      split at hst
      next => cases hst
      next c hc =>
        split at hst
        next => cases hst
        next pt hin =>
          split at hst
          next hok =>
            split at hst
            · injection hst with hst; subst hst
              exact Or.inr (Or.inr (Or.inr ⟨⟨cid, r, by rw [hok]⟩, rfl⟩))
            · cases hst
          next hok =>
            split at hst
            · injection hst with hst; subst hst
              exact Or.inr (Or.inl ⟨rfl, rfl⟩)
            · injection hst with hst; subst hst
              exact Or.inl rfl
  | appQuit =>
      injection hst with hst; subst hst
      exact Or.inr (Or.inl ⟨rfl, rfl⟩)

theorem stepExitCb_ready {fs : String → Bool} {s s' : MState}
    (hst : step fs Act.exitCb s = some s') : s'.backendReady = false := by
  simp only [step] at hst
  unfold stepExitCb at hst
  cases hpe : s.pendingExits with
  | nil => rw [hpe] at hst; cases hst
  | cons pc rest =>
      obtain ⟨pid, code⟩ := pc
      rw [hpe] at hst
      injection hst with hst; subst hst
      rfl

/-! ## The claims -/

/-- C1 (counterexample): the claim "for every sequence of start/restart
requests, termination of the prior worker is fully confirmed before the
next worker is spawned, so at most one worker process is alive at any
instant" fails on the code: in the admissible interleaving `schedDual`, a
`backend:start` request processed during a restart's settle delay (when
`pythonProcess` is already null) fires a second `startPythonBackend`, and
two live workers result. -/
theorem C1_two_workers_reachable :
    aliveCountOf (run fsAll schedDual startState) = 2 ∧
    alivePortsOf (run fsAll schedDual startState) = [5002, 5002] := by decide

/-- C1 (amended): provided start/restart requests are accepted only while
no `startPythonBackend` invocation is in flight (serialized requests, with
termination observed through confirmed exit or the modelled kill
escalation), every reachable supervisor state has at most one live worker,
and any live worker is exactly the one the supervisor's handle points
to — so the prior worker's termination is always confirmed before the next
worker exists. -/
theorem C1_serialized_single_worker (fs : String → Bool) (s : MState)
    (h : Reach fs serialOk s) :
    s.alive.length ≤ 1 ∧ ∀ w ∈ s.alive, s.pythonProcess = some w.pid := by
  have hS := sinv_reach (fun _ _ hh => hh) h
  exact ⟨hS.2.1, hS.2.2.1⟩

theorem C1_serialized_single_worker_witness :
    (stepSetPath fsAll (some "w.db") startState).alive.length ≤ 1 :=
  (C1_serialized_single_worker fsAll _
    (@Reach.next fsAll serialOk startState
      (stepSetPath fsAll (some "w.db") startState)
      (Act.reqSetPath (some "w.db")) Reach.base rfl rfl)).1

/-- C2 (code behaviour at the failing input): the health check has no
stale-result guard.  After a restart supersedes port 6000 with 6001, the
late 200 response of the old worker — captured for port 6000 while the
request was in flight — still sets `backendReady = true` and announces
readiness with the current port 6001, although the restart is in flight
and no worker is bound to 6001. -/
theorem C2_stale_result_sets_ready :
    readyOf (run fsAll schedStale startState) = true ∧
    restartingOf (run fsAll schedStale startState) = true ∧
    apiPortOf (run fsAll schedStale startState) = some 6001 ∧
    readyEventsOf (run fsAll schedStale startState) = [(6000, some 6001)] ∧
    alivePortsOf (run fsAll schedStale startState) = [6000] := by decide

/-- C3: in every health-check cycle the retry schedule is exactly
`[(1, d 1), ..., (k, d k)]` for some `k ≤ 19`, where
`d n = min (300 * (3/2)^(n-1)) 2000` ms is the backoff delay scheduled
after attempt `n`; the cycle makes at most 20 attempts and reports failure
only once 20 attempts have been made or 20000 ms of elapsed time have
passed. -/
theorem C3_backoff_schedule_and_bounds (env : CycleEnv) :
    resultStopOk (runCycle env).1 ∧
    ∃ k, k ≤ 19 ∧
      (runCycle env).2 =
        (List.range k).map (fun i => (i + 1, specBackoff (i + 1))) := by
  obtain ⟨hs, k, hk, hsch⟩ :=
    runFrom_spec env maxAttempts 0 (by simp) (by simp [maxAttempts])
  refine ⟨hs, k, by simpa [maxAttempts] using hk, ?_⟩
  show (runFrom env 0).2 = _
  rw [hsch]
  simp

theorem C3_backoff_schedule_and_bounds_witness :
    resultStopOk (runCycle envDemo).1 :=
  (C3_backoff_schedule_and_bounds envDemo).1

/-- C4: a worker exit is surfaced as a user-facing error exactly when its
exit code is non-null, non-zero and the supervisor is not shutting down;
the exit callback always clears the ready flag, and increments the
surfaced-error count precisely according to that classification. -/
theorem C4_exit_surfacing :
    (∀ (code : Option Int) (sd : Bool),
        exitSurfacesError code sd = true ↔
          (code ≠ none ∧ code ≠ some 0 ∧ sd = false)) ∧
    (∀ (fs : String → Bool) (s s' : MState) (pid : Nat) (code : Option Int)
        (rest : List (Nat × Option Int)),
        s.pendingExits = (pid, code) :: rest → step fs Act.exitCb s = some s' →
        s'.errorEvents = s.errorEvents +
          (if exitSurfacesError code s.isShuttingDown then 1 else 0) ∧
        s'.backendReady = false) := by
  refine ⟨exitSurfacesError_iff, ?_⟩
  intro fs s s' pid code rest hpe hst
  simp only [step] at hst
  unfold stepExitCb at hst
  rw [hpe] at hst
  injection hst with hst; subst hst
  exact ⟨rfl, rfl⟩

theorem C4_exit_surfacing_witness :
    ({ startState with errorEvents := 1 } : MState).errorEvents =
        exitDemoState.errorEvents +
          (if exitSurfacesError (some 1) exitDemoState.isShuttingDown then 1 else 0) ∧
    ({ startState with errorEvents := 1 } : MState).backendReady = false :=
  C4_exit_surfacing.2 fsAll exitDemoState _ 0 (some 1) [] rfl (by decide)

/-- C5: `db:setPath` with a non-empty path whose (lowercased) extension is
outside the allow-list, or whose file does not exist, returns a failure
result carrying an error message, and the handler leaves the supervisor
state completely unchanged — in particular no restart is triggered. -/
theorem C5_invalid_setPath_no_restart (fs : String → Bool) (p : String) (s : MState)
    (hne : p ≠ "")
    (hbad : validExtensions.contains (toLower (extname p)) = false ∨ fs p = false) :
    (dbSetPath fs (some p) s).1.success = false ∧
    (dbSetPath fs (some p) s).1.error ≠ none ∧
    (dbSetPath fs (some p) s).2.2 = false ∧
    stepSetPath fs (some p) s = s := by
  obtain ⟨h1, h2, h3, h4⟩ := dbSetPath_invalid fs p s hne hbad
  refine ⟨h1, h2, h3, ?_⟩
  unfold stepSetPath
  dsimp only
  have hcond : ¬((dbSetPath fs (some p) s).2.2 = true) := by simp [h3]
  rw [if_neg hcond]
  exact h4

theorem C5_invalid_setPath_no_restart_witness :
    ("notes.txt" ≠ "" ∧
      validExtensions.contains (toLower (extname "notes.txt")) = false) ∧
    ((dbSetPath fsAll (some "notes.txt") startState).1.success = false ∧
      (dbSetPath fsAll (some "notes.txt") startState).1.error ≠ none ∧
      (dbSetPath fsAll (some "notes.txt") startState).2.2 = false ∧
      stepSetPath fsAll (some "notes.txt") startState = startState) :=
  ⟨⟨by decide, by decide⟩,
    C5_invalid_setPath_no_restart fsAll "notes.txt" startState (by decide)
      (Or.inl (by decide))⟩

/-- C6: the teardown wait polls on a 50 ms grid (50, 100, ..., 1950, then
the 2000 ms timeout), always resolves within 2000 ms for every behaviour
of the worker, resolves early only at a poll that observed the worker
gone, and escalates to the forced kill exactly when no poll observed the
worker gone and it is still alive at the 2000 ms bound. -/
theorem C6_teardown_wait_bounded (deadAt : Nat → Bool) :
    (terminateWait deadAt).1 ≤ 2000 ∧
    ((terminateWait deadAt).1 = 2000 ∨
      ((terminateWait deadAt).1 ∈ pollTicks ∧
        deadAt (terminateWait deadAt).1 = true)) ∧
    ((terminateWait deadAt).2 = true ↔
      ((∀ t ∈ pollTicks, deadAt t = false) ∧ deadAt 2000 = false)) ∧
    (∀ t ∈ pollTicks, t % 50 = 0 ∧ 0 < t ∧ t < 2000) ∧
    (∀ k ∈ List.range 39, 50 * (k + 1) ∈ pollTicks) := by
  cases hf : pollTicks.find? (fun t => deadAt t) with
  | some t =>
      have hdt : deadAt t = true := by simpa using List.find?_some hf
      have hmem : t ∈ pollTicks := List.mem_of_find?_eq_some hf
      have hle : ∀ u ∈ pollTicks, u ≤ 2000 := by decide
      simp only [terminateWait, hf]
      refine ⟨hle t hmem, Or.inr ⟨hmem, hdt⟩, ?_, by decide, by decide⟩
      constructor
      · intro hfk; simp at hfk
      · rintro ⟨hall, _⟩
        rw [hall t hmem] at hdt
        cases hdt
  | none =>
      have hall : ∀ u ∈ pollTicks, deadAt u = false := by
        intro u hu
        have := List.find?_eq_none.mp hf u hu
        simpa using this
      simp only [terminateWait, hf]
      refine ⟨le_refl 2000, Or.inl (by trivial), ?_, by decide, by decide⟩
      constructor
      · intro h2
        refine ⟨hall, ?_⟩
        simpa using h2
      · rintro ⟨_, h2⟩
        simp [h2]

theorem C6_teardown_wait_bounded_witness :
    (terminateWait (fun t => decide (1000 ≤ t))).1 ≤ 2000 :=
  (C6_teardown_wait_bounded (fun t => decide (1000 ≤ t))).1

/-- C7 (counterexample): the claim "for every successful restart that
replaces a previous worker the newly reported active port differs from the
previous worker's port" fails when the previous worker already exited: in
`schedReuse` the first worker ran on port 8000, crashed, and the restart's
fresh allocation legitimately returns the now-free port 8000 again, so the
new active port equals the previous worker's port. -/
theorem C7_same_port_reachable :
    alivePortsOf (run fsAll schedReusePre startState) = [8000] ∧
    apiPortOf (run fsAll schedReuse startState) = some 8000 ∧
    alivePortsOf (run fsAll schedReuse startState) = [8000] ∧
    aliveCountOf (run fsAll schedReuse startState) = 1 := by decide

/-- C7 (amended): every start/restart performs a fresh allocation which
reassigns the reported active port, and the allocated port differs from
the port of every worker still alive at allocation time — in particular
from the previous worker's port whenever that worker is still running when
it is replaced. -/
theorem C7_fresh_port_if_alive (fs : String → Bool) (tid port : Nat) (ok : Bool)
    (s s' : MState) (hst : step fs (Act.allocReturn tid port ok) s = some s') :
    s'.apiPort = some port ∧ ∀ w ∈ s.alive, w.port ≠ port := by
  simp only [step] at hst
  exact stepAlloc_fresh hst

theorem C7_fresh_port_if_alive_witness :
    ((stepAlloc 0 4000 true demoAfterSetPath).getD startState).apiPort = some 4000 :=
  (C7_fresh_port_if_alive fsAll 0 4000 true demoAfterSetPath
    ((stepAlloc 0 4000 true demoAfterSetPath).getD startState) (by decide)).1

/-- C8 (counterexample): the invariant "`ready` is false whenever
`restarting` is true" fails on the code: a stale in-flight health success
delivered after a new restart has begun leaves a reachable state with
`backendReady = true` and `isRestarting = true`. -/
theorem C8_ready_while_restarting_reachable :
    readyOf (run fsAll schedStale2 startState) = true ∧
    restartingOf (run fsAll schedStale2 startState) = true := by decide

/-- C8 (amended): when restarts are serialized and no health-check result
is delivered while a restart is in flight, every reachable state satisfies
"`ready` implies not restarting and a process handle exists"; and
unconditionally, any step that raises `isRestarting` clears `ready`, the
exit callback clears `ready`, and only a successful health response ever
raises `ready`. -/
theorem C8_ready_flag_discipline :
    (∀ (fs : String → Bool) (s : MState), Reach fs serialQuiet s →
        s.backendReady = true → s.isRestarting = false ∧ s.pythonProcess ≠ none) ∧
    (∀ (fs : String → Bool) (a : Act) (s s' : MState), step fs a s = some s' →
        s.isRestarting = false → s'.isRestarting = true → s'.backendReady = false) ∧
    (∀ (fs : String → Bool) (s s' : MState), step fs Act.exitCb s = some s' →
        s'.backendReady = false) ∧
    (∀ (fs : String → Bool) (a : Act) (s s' : MState), step fs a s = some s' →
        s.backendReady = false → s'.backendReady = true →
        ∃ cid r, a = Act.healthRespond cid true r) := by
  refine ⟨?_, ?_, ?_, ?_⟩
  · intro fs s hr hready
    exact inv8_reach hr hready
  · intro fs a s s' hst h0 h1
    rcases step_flags hst with h | ⟨hb, hr⟩ | ⟨hb, hr⟩ | ⟨_, hr⟩
    · exact h
    · rw [hr, h0] at h1; simp at h1
    · rw [hr] at h1; simp at h1
    · rw [hr, h0] at h1; simp at h1
  · intro fs s s' hst
    exact stepExitCb_ready hst
  · intro fs a s s' hst h0 h1
    rcases step_flags hst with h | ⟨hb, _⟩ | ⟨hb, _⟩ | ⟨hex, _⟩
    · rw [h] at h1; simp at h1
    · rw [hb, h0] at h1; simp at h1
    · rw [hb, h0] at h1; simp at h1
    · exact hex

theorem C8_ready_flag_discipline_witness :
    (stepSetPath fsAll (some "w.db") startState).backendReady = false :=
  C8_ready_flag_discipline.2.1 fsAll (Act.reqSetPath (some "w.db")) startState _
    rfl rfl (by decide)

/-- C9: `db:setPath` with a null or empty path clears the stored
data-source path to none and then returns a failure result (the state is
mutated before failing), whereas the extension and existence validation
failures return the failure result with the whole state — in particular
the stored path — unchanged. -/
theorem C9_null_path_clears_state (fs : String → Bool) (s : MState) :
    ((dbSetPath fs none s).1.success = false ∧
      (dbSetPath fs none s).2.1 = { s with selectedDBPath := none } ∧
      (dbSetPath fs none s).2.2 = false) ∧
    ((dbSetPath fs (some "") s).1.success = false ∧
      (dbSetPath fs (some "") s).2.1 = { s with selectedDBPath := none } ∧
      (dbSetPath fs (some "") s).2.2 = false) ∧
    (∀ p : String, p ≠ "" →
      (validExtensions.contains (toLower (extname p)) = false ∨ fs p = false) →
      (dbSetPath fs (some p) s).2.1 = s ∧
      (dbSetPath fs (some p) s).1.success = false) := by
  obtain ⟨a1, a2, a3, b1, b2, b3⟩ := dbSetPath_falsy fs s
  refine ⟨⟨a1, a2, a3⟩, ⟨b1, b2, b3⟩, ?_⟩
  intro p hne hbad
  obtain ⟨h1, _, _, h4⟩ := dbSetPath_invalid fs p s hne hbad
  exact ⟨h4, h1⟩

theorem C9_null_path_clears_state_witness :
    (dbSetPath fsAll none keepState).2.1 = { keepState with selectedDBPath := none } ∧
    (dbSetPath fsAll (some "x.txt") keepState).2.1 = keepState :=
  ⟨(C9_null_path_clears_state fsAll keepState).1.2.1,
    ((C9_null_path_clears_state fsAll keepState).2.2 "x.txt" (by decide)
      (Or.inl (by decide))).1⟩

/-- C10: every resumption of `apiPort = await getFreePort()` reassigns the
reported active port at once — when an old worker exists, before that
worker is terminated (it is still alive and still the handle), before any
new worker is spawned, and without touching the ready flag; consequently
the concrete mid-restart state of `schedMid` is reachable, where
`getActivePort` reports 9001 while the only live worker serves 9000 and
`isReady` is false. -/
theorem C10_active_port_leads_worker :
    (∀ (fs : String → Bool) (tid port q : Nat) (ok : Bool) (s s' : MState),
        step fs (Act.allocReturn tid port ok) s = some s' →
        s.pythonProcess = some q →
        s'.apiPort = some port ∧ s'.alive = s.alive ∧ s'.pythonProcess = some q ∧
        s'.backendReady = s.backendReady ∧ (tid, StartPhase.termWait) ∈ s'.tasks) ∧
    (apiPortOf (run fsAll schedMid startState) = some 9001 ∧
      readyOf (run fsAll schedMid startState) = false ∧
      restartingOf (run fsAll schedMid startState) = true ∧
      alivePortsOf (run fsAll schedMid startState) = [9000]) := by
  constructor
  · intro fs tid port q ok s s' hst hpy
    simp only [step] at hst
    exact stepAlloc_before_teardown hst hpy
  · decide

theorem C10_active_port_leads_worker_witness :
    ((stepAlloc 3 9100 true demoMidRestart).getD startState).apiPort = some 9100 :=
  (C10_active_port_leads_worker.1 fsAll 3 9100 1 true demoMidRestart
    ((stepAlloc 3 9100 true demoMidRestart).getD startState)
    (by decide) (by decide)).1

end CoreScout
